import Mathlib

/-!
Shallow embedding of `src/relay/pass/util.cc` (TVM Relay pass utilities):
free-variable analysis (`FreeVarVisitor`, `FreeTypeVarTVisitor`,
`FreeTypeVarEVisitor`), expression reference counting (`GetExprRefCount`)
and the constant-sign predicate (`IsAllPositiveConstant`,
`IsNDArrayAllGreaterEqual`).

Modelling decisions:
* Term variables and type variables are identified by their node identity;
  following the spec design note we mint them as `Nat` handles.
* The IR node kinds needed by the analyses are modelled as inductive trees
  (variable, constant, operator reference, call, function, let, tuple);
  the tuple stands for the generic "other" node kinds that the visitors
  traverse structurally.
* `unordered_set` bound sets become `List Nat` used only through membership;
  insertion is modelled by consing / appending in front.
* `tvm::Array` result accumulators become `List Nat` with `push_back`
  modelled as appending at the end.
* The dmlc `CHECK` macros abort with a fatal error rather than returning;
  fallible code is therefore embedded in `Except String Bool`, with
  `.error` marking a check failure.
* NDArray element values are modelled as the list of mathematical values
  (`Rat`) stored in the buffer in row-major order, as interpreted at the
  declared dtype; multi-byte layout itself is external runtime territory.
-/

/-! ### DLPack constants (external, fixed by the DLPack ABI) -/

def kDLCPU : Nat := 1

def kDLInt : Nat := 0

def kDLUInt : Nat := 1

def kDLFloat : Nat := 2

/-- Model of `runtime::NDArray` as seen by `IsNDArrayAllGreaterEqual`:
device type, whether `strides` is null, the byte offset, the dtype triple
(code, bits, lanes), the shape, and the buffer contents interpreted at the
declared element type, in row-major order. -/
structure NDArray where
  deviceType : Nat
  stridesNull : Bool
  byteOffset : Nat
  dtypeCode : Nat
  dtypeBits : Nat
  dtypeLanes : Nat
  shape : List Int
  data : List Rat

/-- Model of Relay types as needed by the type-variable analysis:
type variables (by identity), function types with declared type
parameters, and a generic leaf type standing for the other type kinds. -/
inductive Ty where
  | tyVar (id : Nat)
  | funcTy (typeParams : List Nat) (argTypes : List Ty) (retTy : Ty)
  | tensorTy

/-- Model of Relay expressions as needed by the analyses in `util.cc`.
A `function` carries its parameters (variable identity paired with its
type annotation), declared type parameters, return type annotation and
body; `tuple` stands for the generic "other" node kinds, traversed
structurally child by child. -/
inductive Expr where
  | var (id : Nat)
  | constant (tensor : NDArray)
  | opRef (name : String)
  | call (op : Expr) (args : List Expr)
  | function (params : List (Nat × Ty)) (typeParams : List Nat) (retTy : Ty) (body : Expr)
  | letE (v : Nat) (value : Expr) (body : Expr)
  | tuple (fields : List Expr)

/-- The mutable visitor state of one `Find` call: the bound-variable set
(`bound_vars_`, used only through membership) and the ordered result
accumulator (`free_vars_`). -/
structure FVState where
  bound : List Nat
  free : List Nat

/-! ### FreeTypeVarTVisitor -/

/-- Visiting the declared type parameters of a function type as type-variable
nodes (they sit in the bound set by the time they are visited, so nothing is
collected); this is the `TypeVarNode` case applied pointwise. -/
def visitTyParams (tps : List Nat) (s : FVState) : FVState :=
  tps.foldl (fun acc id => if id ∈ acc.bound then acc else { acc with free := acc.free ++ [id] }) s

mutual

/-- `FreeTypeVarTVisitor` from the source: a `TypeVarNode` is appended to
the result exactly when it is not in the bound set; a `FuncTypeNode` first
inserts all of its declared type parameters into the bound set, then
recurses into its children (type parameters, argument types, return type).
The structural recursion of the base `TypeVisitor` for nodes without a
special rule is modelled from the spec (the base class is not under the
sources given): recurse into all child types left to right. -/
def visitTy : Ty → FVState → FVState
  | .tyVar id, s => if id ∈ s.bound then s else { s with free := s.free ++ [id] }
  | .funcTy tps argTys retTy, s =>
      let s1 : FVState := { s with bound := tps ++ s.bound }
      let s2 := visitTyParams tps s1
      let s3 := visitTyList argTys s2
      visitTy retTy s3
  | .tensorTy, s => s

/-- Left-to-right traversal of a list of child types. -/
def visitTyList : List Ty → FVState → FVState
  | [], s => s
  | t :: ts, s => visitTyList ts (visitTy t s)

end

/-! ### FreeVarVisitor (term-level free variables) -/

mutual

/-- `FreeVarVisitor` from the source: a `VarNode` is appended to the result
exactly when its identity is not in the bound set; a `FunctionNode` inserts
every parameter identity into the bound set and then visits only its body;
a `LetNode` inserts the bound variable, then visits the value, then the
body. The default cases (call, tuple, leaves) are modelled from the spec:
the base `ExprVisitor` (not under the sources given) recurses structurally
into the children in natural left-to-right order, callee before
arguments. -/
def visitExpr : Expr → FVState → FVState
  | .var id, s => if id ∈ s.bound then s else { s with free := s.free ++ [id] }
  | .constant _, s => s
  | .opRef _, s => s
  | .call op args, s => visitExprList args (visitExpr op s)
  | .function params _ _ body, s =>
      visitExpr body { s with bound := params.map Prod.fst ++ s.bound }
  | .letE v value body, s =>
      let s1 : FVState := { s with bound := v :: s.bound }
      visitExpr body (visitExpr value s1)
  | .tuple fields, s => visitExprList fields s

/-- Left-to-right traversal of a list of child expressions. -/
def visitExprList : List Expr → FVState → FVState
  | [], s => s
  | e :: es, s => visitExprList es (visitExpr e s)

end

/-! ### FreeTypeVarEVisitor (type variables of an expression) -/

mutual

/-- `FreeTypeVarEVisitor` from the source: a `FunctionNode` inserts every
declared type parameter into the bound set and then performs the default
function traversal; embedded types are visited with `FreeTypeVarTVisitor`
sharing the same bound set and accumulator. The default traversal is
modelled from the spec (base `ExprVisitor` not under the sources given):
it descends into the function parameter type annotations, the return type
annotation and the body; other nodes are traversed structurally (variables
in this model carry no standalone annotation). -/
def visitExprT : Expr → FVState → FVState
  | .var _, s => s
  | .constant _, s => s
  | .opRef _, s => s
  | .call op args, s => visitExprTList args (visitExprT op s)
  | .function params tps retTy body, s =>
      let s1 : FVState := { s with bound := tps ++ s.bound }
      let s2 := visitTyList (params.map Prod.snd) s1
      let s3 := visitTy retTy s2
      visitExprT body s3
  | .letE _ value body, s => visitExprT body (visitExprT value s)
  | .tuple fields, s => visitExprTList fields s

/-- Left-to-right traversal of a list of child expressions, type mode. -/
def visitExprTList : List Expr → FVState → FVState
  | [], s => s
  | e :: es, s => visitExprTList es (visitExprT e s)

end

/-- `FreeVars(expr)`: run `FreeVarVisitor::Find` from empty state. -/
def FreeVars (e : Expr) : List Nat := (visitExpr e ⟨[], []⟩).free

/-- `FreeTypeVars(expr)`: run `FreeTypeVarEVisitor::Find` from empty state. -/
def FreeTypeVarsE (e : Expr) : List Nat := (visitExprT e ⟨[], []⟩).free

/-- `FreeTypeVars(type)`: run `FreeTypeVarEVisitor::Find` on a type. -/
def FreeTypeVarsT (t : Ty) : List Nat := (visitTy t ⟨[], []⟩).free

/-- Spec name for `FreeVars`. -/
def FindFreeVariables : Expr → List Nat := FreeVars

/-- Spec name for `FreeTypeVars` on an expression. -/
def FindFreeTypeVariables : Expr → List Nat := FreeTypeVarsE

/-- Spec name for `FreeTypeVars` on a type. -/
def FindFreeTypeVariablesT : Ty → List Nat := FreeTypeVarsT

/-! ### Lexical closedness (used to state the spec claim about expressions
with no unbound references) -/

mutual

/-- An expression is closed under a list of enclosing binders when every
variable occurrence is bound by an enclosing function parameter or
let-binding on the path from the root (the let-bound variable counts as
enclosing for both the value and the body). -/
def closedUnder : List Nat → Expr → Bool
  | b, .var id => decide (id ∈ b)
  | _, .constant _ => true
  | _, .opRef _ => true
  | b, .call op args => closedUnder b op && closedUnderList b args
  | b, .function params _ _ body => closedUnder (params.map Prod.fst ++ b) body
  | b, .letE v value body => closedUnder (v :: b) value && closedUnder (v :: b) body
  | b, .tuple fields => closedUnderList b fields

/-- Closedness of every expression in a list. -/
def closedUnderList : List Nat → List Expr → Bool
  | _, [] => true
  | b, e :: es => closedUnder b e && closedUnderList b es

end

/-! ### GetExprRefCount -/

/-- Modelled from the spec: the reference counter works on the shared, DAG
shaped expression graph, which the spec's design note says to model as an
arena of nodes addressed by index, parents holding child indices.  An
arena is the list of per-node child-index lists; acyclicity (which the
caller must guarantee) is embedded by only following edges to strictly
smaller indices. -/
def nodeChildren (arena : List (List Nat)) (i : Nat) : List Nat :=
  (arena.getD i []).filter (fun c => decide (c < i))

/-- Modelled from the spec: the base `ExprVisitor` traversal driving
`GetExprRefCount` is not under the sources given; per the spec it reaches
the root, then recurses into every node kind's children, without revisit
detection, and the count of a node is the number of times it is reached.
`visitSeqF` returns the sequence of node reaches; the fuel argument only
realises the structural recursion and never runs out when started at
`root + 1`, because edges go to strictly smaller indices. -/
def visitSeqF : Nat → List (List Nat) → Nat → List Nat
  | 0, _, i => [i]
  | fuel + 1, arena, i =>
      i :: ((nodeChildren arena i).map (fun c => visitSeqF fuel arena c)).flatten

/-- `GetExprRefCount(body)` at one node identity: the number of times the
traversal reaches that node. -/
def GetExprRefCount (arena : List (List Nat)) (root n : Nat) : Nat :=
  (visitSeqF (root + 1) arena root).count n

/-- Modelled from the spec: the number of incoming paths from the root to
a node ("a node reachable through N distinct edges accumulates count N",
each edge being traversed once per arrival at its source).  Written as the
standard path-count recurrence, to be compared with `GetExprRefCount`. -/
def numPathsF : Nat → List (List Nat) → Nat → Nat → Nat
  | 0, _, i, t => if i = t then 1 else 0
  | fuel + 1, arena, i, t =>
      (if i = t then 1 else 0) +
      ((nodeChildren arena i).map (fun c => numPathsF fuel arena c t)).sum

/-- Number of root-to-node paths in the arena. -/
def numPaths (arena : List (List Nat)) (root n : Nat) : Nat :=
  numPathsF (root + 1) arena root n

/-! ### IsNDArrayAllGreaterEqual / IsAllPositiveConstant -/

/-- The element scan of `IsNDArrayAllGreaterEqual`: walk the buffer and
return `false` at the first element strictly less than `value`, else
`true`. -/
def ndarrayScan (data : List Rat) (value : Rat) : Bool :=
  match data with
  | [] => true
  | x :: rest => if x < value then false else ndarrayScan rest value

/-- The flattened element count of a tensor: the product of its shape
dimensions (`num_elems` in the source). -/
def numElems (t : NDArray) : Int :=
  t.shape.foldl (fun a b => a * b) 1

/-- `IsNDArrayAllGreaterEqual<T>(tensor, value)` from the source: three
`CHECK`s on the layout (CPU device, null strides, zero byte offset) which
abort on failure (modelled as `.error`), then a scan of `num_elems`
elements of the buffer against `value`.  The C++ loop runs zero times when
`num_elems` is not positive, which `Int.toNat` reproduces. -/
def IsNDArrayAllGreaterEqual (tensor : NDArray) (value : Rat) : Except String Bool :=
  if tensor.deviceType ≠ kDLCPU then
    .error "Check failed: tensor.ctx.device_type == kDLCPU"
  else if tensor.stridesNull = false then
    .error "Check failed: tensor.strides == nullptr"
  else if tensor.byteOffset ≠ 0 then
    .error "Check failed: tensor.byte_offset == 0"
  else
    .ok (ndarrayScan (tensor.data.take (numElems tensor).toNat) value)

/-- The fixed allow-list of shape-preserving operators that
`IsAllPositiveConstant` peels through. -/
def peelOpNames : List String := ["expand_dims", "reshape", "transpose", "squeeze"]

/-- Whether a call operator is (the registry node of) one of the four
allow-listed operators.  The operator registry is external; it returns one
node per name, so `same_as` against `Op::Get(name)` is name equality on
operator references. -/
def isPeelOp : Expr → Bool
  | .opRef n => decide (n ∈ peelOpNames)
  | _ => false

/-- The supported element encodings of `IsAllPositiveConstant`:
32/64-bit float, 8/32-bit signed int, 8/32-bit unsigned int. -/
def supportedDtype (t : NDArray) : Bool :=
  decide ((t.dtypeCode = kDLFloat ∧ t.dtypeBits = 32) ∨
          (t.dtypeCode = kDLFloat ∧ t.dtypeBits = 64) ∨
          (t.dtypeCode = kDLInt ∧ t.dtypeBits = 8) ∨
          (t.dtypeCode = kDLInt ∧ t.dtypeBits = 32) ∨
          (t.dtypeCode = kDLUInt ∧ t.dtypeBits = 8) ∨
          (t.dtypeCode = kDLUInt ∧ t.dtypeBits = 32))

/-- The layout preconditions `CHECK`ed by `IsNDArrayAllGreaterEqual`. -/
def goodLayout (t : NDArray) : Bool :=
  decide (t.deviceType = kDLCPU ∧ t.stridesNull = true ∧ t.byteOffset = 0)

/-- `IsAllPositiveConstant` from the source.  A constant with lane count
other than one is `false`; otherwise the dtype chain dispatches the
template instantiation of `IsNDArrayAllGreaterEqual` at value `0` (each
branch scans the buffer values interpreted at its own element type, which
the model carries directly in `data`); unsupported dtypes are `false`.
A call to one of the four allow-listed operators recurses on its first
argument (`args[0]`; the `tvm::Array` bound check aborts when the argument
list is empty); any other call and any other node kind is `false`. -/
def IsAllPositiveConstant : Expr → Except String Bool
  | .constant tensor =>
      if tensor.dtypeLanes ≠ 1 then .ok false
      else if tensor.dtypeCode = kDLFloat ∧ tensor.dtypeBits = 32 then
        IsNDArrayAllGreaterEqual tensor 0
      else if tensor.dtypeCode = kDLFloat ∧ tensor.dtypeBits = 64 then
        IsNDArrayAllGreaterEqual tensor 0
      else if tensor.dtypeCode = kDLInt ∧ tensor.dtypeBits = 8 then
        IsNDArrayAllGreaterEqual tensor 0
      else if tensor.dtypeCode = kDLInt ∧ tensor.dtypeBits = 32 then
        IsNDArrayAllGreaterEqual tensor 0
      else if tensor.dtypeCode = kDLUInt ∧ tensor.dtypeBits = 8 then
        IsNDArrayAllGreaterEqual tensor 0
      else if tensor.dtypeCode = kDLUInt ∧ tensor.dtypeBits = 32 then
        IsNDArrayAllGreaterEqual tensor 0
      else .ok false
  | .call op (a :: _) =>
      if isPeelOp op then IsAllPositiveConstant a else .ok false
  | .call op [] =>
      if isPeelOp op then .error "Check failed: index < size: args" else .ok false
  | _ => .ok false

/-- Spec name for `IsAllPositiveConstant` (the predicate is inclusive of
zero despite the source name). -/
def IsAllNonNegativeConstant : Expr → Except String Bool := IsAllPositiveConstant

/-- Whether an expression is a literal constant node. -/
def isConstExpr : Expr → Bool
  | .constant _ => true
  | _ => false

/-- Whether an expression is a call whose operator is in the allow-list. -/
def isPeelCall : Expr → Bool
  | .call op _ => isPeelOp op
  | _ => false

/-! ## Helper lemmas -/

/-- One traversal step relates the incoming visitor state to the outgoing
one: the bound set only grows, and the accumulator is only appended to,
with every appended variable free (not bound) at the start of the step. -/
def StepOK (s s2 : FVState) : Prop :=
  (∀ x, x ∈ s.bound → x ∈ s2.bound) ∧
  ∃ l, s2.free = s.free ++ l ∧ ∀ x, x ∈ l → x ∉ s.bound

theorem StepOK.refl (s : FVState) : StepOK s s :=
  ⟨fun _ hx => hx, [], by simp, by simp⟩

theorem StepOK.trans {s t u : FVState} (h1 : StepOK s t) (h2 : StepOK t u) : StepOK s u := by
  obtain ⟨m1, l1, e1, b1⟩ := h1
  obtain ⟨m2, l2, e2, b2⟩ := h2
  refine ⟨fun x hx => m2 x (m1 x hx), l1 ++ l2, by rw [e2, e1, List.append_assoc], ?_⟩
  intro x hx
  rcases List.mem_append.mp hx with h | h
  · exact b1 x h
  · exact fun hb => b2 x h (m1 x hb)

theorem StepOK.extendBound (ids : List Nat) (s : FVState) :
    StepOK s { s with bound := ids ++ s.bound } :=
  ⟨fun x hx => List.mem_append_right _ hx, [], by simp, by simp⟩

theorem StepOK.consBound (v : Nat) (s : FVState) :
    StepOK s { s with bound := v :: s.bound } :=
  ⟨fun x hx => List.mem_cons_of_mem _ hx, [], by simp, by simp⟩

theorem visitTyParams_stepOK (tps : List Nat) (s : FVState) :
    StepOK s (visitTyParams tps s) := by
  induction tps generalizing s with
  | nil => exact StepOK.refl s
  | cons t ts ih =>
      have hstep : StepOK s (if t ∈ s.bound then s else { s with free := s.free ++ [t] }) := by
        by_cases h : t ∈ s.bound
        · rw [if_pos h]; exact StepOK.refl s
        · rw [if_neg h]
          refine ⟨fun x hx => hx, [t], rfl, ?_⟩
          intro x hx
          rw [List.mem_singleton.mp hx]
          exact h
      have : visitTyParams (t :: ts) s =
          visitTyParams ts (if t ∈ s.bound then s else { s with free := s.free ++ [t] }) := by
        simp [visitTyParams, List.foldl_cons]
      rw [this]
      exact hstep.trans (ih _)

mutual

theorem visitTy_stepOK : ∀ (t : Ty) (s : FVState), StepOK s (visitTy t s)
  | .tyVar id, s => by
      by_cases h : id ∈ s.bound
      · simp only [visitTy, if_pos h]; exact StepOK.refl s
      · simp only [visitTy, if_neg h]
        refine ⟨fun x hx => hx, [id], rfl, ?_⟩
        intro x hx
        rw [List.mem_singleton.mp hx]
        exact h
  | .funcTy tps argTys retTy, s => by
      simp only [visitTy]
      exact ((((StepOK.extendBound tps s).trans
        (visitTyParams_stepOK tps _)).trans
        (visitTyList_stepOK argTys _)).trans
        (visitTy_stepOK retTy _))
  | .tensorTy, s => by
      simp only [visitTy]; exact StepOK.refl s

theorem visitTyList_stepOK : ∀ (ts : List Ty) (s : FVState), StepOK s (visitTyList ts s)
  | [], s => by simp only [visitTyList]; exact StepOK.refl s
  | t :: ts, s => by
      simp only [visitTyList]
      exact (visitTy_stepOK t s).trans (visitTyList_stepOK ts _)

end

mutual

theorem visitExpr_stepOK : ∀ (e : Expr) (s : FVState), StepOK s (visitExpr e s)
  | .var id, s => by
      by_cases h : id ∈ s.bound
      · simp only [visitExpr, if_pos h]; exact StepOK.refl s
      · simp only [visitExpr, if_neg h]
        refine ⟨fun x hx => hx, [id], rfl, ?_⟩
        intro x hx
        rw [List.mem_singleton.mp hx]
        exact h
  | .constant _, s => by simp only [visitExpr]; exact StepOK.refl s
  | .opRef _, s => by simp only [visitExpr]; exact StepOK.refl s
  | .call op args, s => by
      simp only [visitExpr]
      exact (visitExpr_stepOK op s).trans (visitExprList_stepOK args _)
  | .function params tps retTy body, s => by
      simp only [visitExpr]
      exact (StepOK.extendBound (params.map Prod.fst) s).trans (visitExpr_stepOK body _)
  | .letE v value body, s => by
      simp only [visitExpr]
      exact ((StepOK.consBound v s).trans (visitExpr_stepOK value _)).trans
        (visitExpr_stepOK body _)
  | .tuple fields, s => by
      simp only [visitExpr]
      exact visitExprList_stepOK fields s

theorem visitExprList_stepOK : ∀ (es : List Expr) (s : FVState), StepOK s (visitExprList es s)
  | [], s => by simp only [visitExprList]; exact StepOK.refl s
  | e :: es, s => by
      simp only [visitExprList]
      exact (visitExpr_stepOK e s).trans (visitExprList_stepOK es _)

end

mutual

theorem visitExprT_stepOK : ∀ (e : Expr) (s : FVState), StepOK s (visitExprT e s)
  | .var _, s => by simp only [visitExprT]; exact StepOK.refl s
  | .constant _, s => by simp only [visitExprT]; exact StepOK.refl s
  | .opRef _, s => by simp only [visitExprT]; exact StepOK.refl s
  | .call op args, s => by
      simp only [visitExprT]
      exact (visitExprT_stepOK op s).trans (visitExprTList_stepOK args _)
  | .function params tps retTy body, s => by
      simp only [visitExprT]
      exact (((StepOK.extendBound tps s).trans
        (visitTyList_stepOK (params.map Prod.snd) _)).trans
        (visitTy_stepOK retTy _)).trans
        (visitExprT_stepOK body _)
  | .letE _ value body, s => by
      simp only [visitExprT]
      exact (visitExprT_stepOK value s).trans (visitExprT_stepOK body _)
  | .tuple fields, s => by
      simp only [visitExprT]
      exact visitExprTList_stepOK fields s

theorem visitExprTList_stepOK : ∀ (es : List Expr) (s : FVState), StepOK s (visitExprTList es s)
  | [], s => by simp only [visitExprTList]; exact StepOK.refl s
  | e :: es, s => by
      simp only [visitExprTList]
      exact (visitExprT_stepOK e s).trans (visitExprTList_stepOK es _)

end

mutual

theorem visitExpr_closed : ∀ (e : Expr) (b : List Nat) (s : FVState),
    closedUnder b e = true → (∀ x, x ∈ b → x ∈ s.bound) → (visitExpr e s).free = s.free
  | .var id, b, s, hc, hsub => by
      have hb : id ∈ b := by
        have := hc
        simp only [closedUnder, decide_eq_true_eq] at this
        exact this
      simp only [visitExpr, if_pos (hsub id hb)]
  | .constant _, _, s, _, _ => by simp only [visitExpr]
  | .opRef _, _, s, _, _ => by simp only [visitExpr]
  | .call op args, b, s, hc, hsub => by
      simp only [closedUnder, Bool.and_eq_true] at hc
      have h1 := visitExpr_closed op b s hc.1 hsub
      have hsub2 : ∀ x, x ∈ b → x ∈ (visitExpr op s).bound :=
        fun x hx => (visitExpr_stepOK op s).1 x (hsub x hx)
      have h2 := visitExprList_closed args b (visitExpr op s) hc.2 hsub2
      simp only [visitExpr]
      rw [h2, h1]
  | .function params tps retTy body, b, s, hc, hsub => by
      simp only [closedUnder] at hc
      simp only [visitExpr]
      exact visitExpr_closed body (params.map Prod.fst ++ b) _ hc (by
        intro x hx
        rcases List.mem_append.mp hx with h | h
        · exact List.mem_append_left _ h
        · exact List.mem_append_right _ (hsub x h))
  | .letE v value body, b, s, hc, hsub => by
      simp only [closedUnder, Bool.and_eq_true] at hc
      simp only [visitExpr]
      have hsub1 : ∀ x, x ∈ v :: b → x ∈ (v :: s.bound) := by
        intro x hx
        rcases List.mem_cons.mp hx with h | h
        · exact h ▸ List.mem_cons_self _ _
        · exact List.mem_cons_of_mem _ (hsub x h)
      have h1 := visitExpr_closed value (v :: b) { s with bound := v :: s.bound } hc.1 hsub1
      have hsub2 : ∀ x, x ∈ v :: b → x ∈ (visitExpr value { s with bound := v :: s.bound }).bound :=
        fun x hx => (visitExpr_stepOK value _).1 x (hsub1 x hx)
      have h2 := visitExpr_closed body (v :: b) _ hc.2 hsub2
      rw [h2, h1]
  | .tuple fields, b, s, hc, hsub => by
      simp only [closedUnder] at hc
      simp only [visitExpr]
      exact visitExprList_closed fields b s hc hsub

theorem visitExprList_closed : ∀ (es : List Expr) (b : List Nat) (s : FVState),
    closedUnderList b es = true → (∀ x, x ∈ b → x ∈ s.bound) → (visitExprList es s).free = s.free
  | [], _, s, _, _ => by simp only [visitExprList]
  | e :: es, b, s, hc, hsub => by
      simp only [closedUnderList, Bool.and_eq_true] at hc
      have h1 := visitExpr_closed e b s hc.1 hsub
      have hsub2 : ∀ x, x ∈ b → x ∈ (visitExpr e s).bound :=
        fun x hx => (visitExpr_stepOK e s).1 x (hsub x hx)
      have h2 := visitExprList_closed es b (visitExpr e s) hc.2 hsub2
      simp only [visitExprList]
      rw [h2, h1]

end

/-! Reference-count helpers. -/

theorem count_flatten_nat (L : List (List Nat)) (t : Nat) :
    L.flatten.count t = (L.map (fun l => l.count t)).sum := by
  induction L with
  | nil => simp
  | cons l ls ih => simp [List.count_append, ih]

theorem count_visitSeqF (fuel : Nat) :
    ∀ (arena : List (List Nat)) (i t : Nat),
      (visitSeqF fuel arena i).count t = numPathsF fuel arena i t := by
  induction fuel with
  | zero =>
      intro arena i t
      by_cases h : i = t <;> simp [visitSeqF, numPathsF, List.count_cons, h]
  | succ n ih =>
      intro arena i t
      simp only [visitSeqF, numPathsF, List.count_cons]
      rw [count_flatten_nat, List.map_map]
      have hmap : ((nodeChildren arena i).map
          (fun c => ((visitSeqF n arena c).count t))) =
          (nodeChildren arena i).map (fun c => numPathsF n arena c t) := by
        apply List.map_congr_left
        intro c _
        exact ih arena c t
      simp only [Function.comp_def]
      rw [hmap]
      by_cases h : i = t <;> simp [h, Nat.add_comm]

/-! Constant-sign helpers. -/

theorem ndarrayScan_eq_true_iff (data : List Rat) (v : Rat) :
    ndarrayScan data v = true ↔ ∀ x, x ∈ data → ¬ x < v := by
  induction data with
  | nil => simp [ndarrayScan]
  | cons x rest ih =>
      simp only [ndarrayScan]
      by_cases h : x < v
      · simp only [if_pos h]
        constructor
        · intro hfalse
          exact absurd hfalse (by simp)
        · intro hall
          exact absurd h (hall x (List.mem_cons_self x rest))
      · simp only [if_neg h]
        rw [ih]
        constructor
        · intro hall y hy
          rcases List.mem_cons.mp hy with rfl | hy
          · exact h
          · exact hall y hy
        · intro hall y hy
          exact hall y (List.mem_cons_of_mem _ hy)

theorem good_layout_eval (t : NDArray) (v : Rat) (h : goodLayout t = true) :
    IsNDArrayAllGreaterEqual t v = .ok (ndarrayScan (t.data.take (numElems t).toNat) v) := by
  simp only [goodLayout, decide_eq_true_eq] at h
  obtain ⟨h1, h2, h3⟩ := h
  simp [IsNDArrayAllGreaterEqual, h1, h2, h3]

theorem bad_layout_error (t : NDArray) (v : Rat) (h : goodLayout t = false) :
    ∃ msg, IsNDArrayAllGreaterEqual t v = .error msg := by
  simp only [goodLayout, decide_eq_false_iff_not, not_and_or] at h
  by_cases h1 : t.deviceType = kDLCPU
  · by_cases h2 : t.stridesNull = true
    · have h3 : t.byteOffset ≠ 0 := by
        rcases h with h | h | h
        · exact absurd h1 h
        · exact absurd h2 h
        · exact h
      exact ⟨"Check failed: tensor.byte_offset == 0",
        by simp [IsNDArrayAllGreaterEqual, h1, h2, h3]⟩
    · have h2f : t.stridesNull = false := by
        cases hb : t.stridesNull
        · rfl
        · exact absurd hb h2
      exact ⟨"Check failed: tensor.strides == nullptr",
        by simp [IsNDArrayAllGreaterEqual, h1, h2f]⟩
  · exact ⟨"Check failed: tensor.ctx.device_type == kDLCPU",
      by simp [IsNDArrayAllGreaterEqual, h1]⟩

theorem supported_dispatch (t : NDArray) (hl : t.dtypeLanes = 1)
    (hd : supportedDtype t = true) :
    IsAllPositiveConstant (.constant t) = IsNDArrayAllGreaterEqual t 0 := by
  simp only [supportedDtype, decide_eq_true_eq] at hd
  rcases hd with ⟨hc, hb⟩ | ⟨hc, hb⟩ | ⟨hc, hb⟩ | ⟨hc, hb⟩ | ⟨hc, hb⟩ | ⟨hc, hb⟩ <;>
    simp [IsAllPositiveConstant, hl, hc, hb, kDLFloat, kDLInt, kDLUInt]

theorem unsupported_encoding_false (t : NDArray)
    (h : t.dtypeLanes ≠ 1 ∨ supportedDtype t = false) :
    IsAllPositiveConstant (.constant t) = .ok false := by
  rcases h with h | h
  · simp [IsAllPositiveConstant, h]
  · by_cases hl : t.dtypeLanes = 1
    · simp only [supportedDtype, decide_eq_false_iff_not, not_or, not_and] at h
      obtain ⟨h1, h2, h3, h4, h5, h6⟩ := h
      simp only [IsAllPositiveConstant, hl]
      rw [if_neg, if_neg, if_neg, if_neg, if_neg, if_neg, if_neg]
      · exact fun ⟨hc, hb⟩ => h6 hc hb
      · exact fun ⟨hc, hb⟩ => h5 hc hb
      · exact fun ⟨hc, hb⟩ => h4 hc hb
      · exact fun ⟨hc, hb⟩ => h3 hc hb
      · exact fun ⟨hc, hb⟩ => h2 hc hb
      · exact fun ⟨hc, hb⟩ => h1 hc hb
      · simp [hl]
    · simp [IsAllPositiveConstant, hl]

theorem foldl_mul_zero_start (l : List Int) : l.foldl (fun x y => x * y) 0 = 0 := by
  induction l with
  | nil => rfl
  | cons a l ih => simpa using ih

theorem foldl_mul_zero (l : List Int) :
    ∀ (a : Int), (0 : Int) ∈ l → l.foldl (fun x y => x * y) a = 0 := by
  induction l with
  | nil =>
      intro a h
      cases h
  | cons b l ih =>
      intro a h
      rcases List.mem_cons.mp h with hb | hb
      · rw [List.foldl_cons, ← hb, mul_zero]
        exact foldl_mul_zero_start l
      · rw [List.foldl_cons]
        exact ih _ hb

/-! ## Claim theorems -/

/-- C1: for every let-binding, the bound variable's identity is in the bound
set before the value and the body are visited, so it is never collected as
free from either subtree; in particular `FindFreeVariables` on
`let x = f(x) in x` with `f` otherwise free returns exactly `[f]`. -/
theorem C1_let_bound_before_value :
    (∀ (v : Nat) (value body : Expr) (s : FVState),
       ∃ l, (visitExpr (.letE v value body) s).free = s.free ++ l ∧ v ∉ l) ∧
    FindFreeVariables (.letE 0 (.call (.var 1) [.var 0]) (.var 0)) = [1] := by
  constructor
  · intro v value body s
    obtain ⟨m1, l1, e1, b1⟩ := visitExpr_stepOK value { s with bound := v :: s.bound }
    obtain ⟨m2, l2, e2, b2⟩ :=
      visitExpr_stepOK body (visitExpr value { s with bound := v :: s.bound })
    refine ⟨l1 ++ l2, ?_, ?_⟩
    · simp only [visitExpr]
      rw [e2, e1]
      exact (List.append_assoc _ _ _)
    · intro hmem
      rcases List.mem_append.mp hmem with h | h
      · exact b1 v h (List.mem_cons_self _ _)
      · exact b2 v h (m1 v (List.mem_cons_self _ _))
  · rfl

/-- C1 witness: the general part instantiated at `let x0 = x1(x0) in x0`. -/
theorem C1_witness :
    ∃ l, (visitExpr (.letE 0 (.call (.var 1) [.var 0]) (.var 0)) ⟨[], []⟩).free = [] ++ l ∧
      0 ∉ l :=
  C1_let_bound_before_value.1 0 (.call (.var 1) [.var 0]) (.var 0) ⟨[], []⟩

/-- C2 counterexample: a float32 single-lane constant on a non-CPU device
makes `IsAllNonNegativeConstant` signal a fatal check failure; it does not
return `false` as the claim states. -/
theorem C2_counterexample :
    IsAllNonNegativeConstant (.constant ⟨2, true, 0, kDLFloat, 32, 1, [1], [1]⟩) =
      .error "Check failed: tensor.ctx.device_type == kDLCPU" ∧
    IsAllNonNegativeConstant (.constant ⟨2, true, 0, kDLFloat, 32, 1, [1], [1]⟩) ≠
      .ok false := by
  constructor
  · rfl
  · intro h
    rw [show IsAllNonNegativeConstant (.constant ⟨2, true, 0, kDLFloat, 32, 1, [1], [1]⟩) =
        Except.error "Check failed: tensor.ctx.device_type == kDLCPU" from rfl] at h
    exact Except.noConfusion h

/-- C2 amended: a constant whose single-lane encoding is supported but whose
layout fails one of the checks (non-CPU device, non-null strides, nonzero
byte offset) makes `IsAllNonNegativeConstant` signal a fatal check error;
only a constant whose encoding itself is unsupported (lane count other than
one, or dtype outside the set) returns `false`, without the layout being
inspected. -/
theorem C2_layout_check_aborts :
    (∀ t : NDArray, t.dtypeLanes = 1 → supportedDtype t = true → goodLayout t = false →
       ∃ msg, IsAllNonNegativeConstant (.constant t) = .error msg) ∧
    (∀ t : NDArray, t.dtypeLanes ≠ 1 ∨ supportedDtype t = false →
       IsAllNonNegativeConstant (.constant t) = .ok false) := by
  constructor
  · intro t hl hd hg
    show ∃ msg, IsAllPositiveConstant (.constant t) = .error msg
    rw [supported_dispatch t hl hd]
    exact bad_layout_error t 0 hg
  · intro t h
    exact unsupported_encoding_false t h

/-- C2 witness: the amended claim applied to a non-CPU float32 constant and
to a lanes-4 constant. -/
theorem C2_witness :
    (∃ msg, IsAllNonNegativeConstant (.constant ⟨2, true, 0, kDLFloat, 32, 1, [1], [1]⟩) =
       .error msg) ∧
    IsAllNonNegativeConstant (.constant ⟨2, true, 0, kDLFloat, 32, 4, [1], [1]⟩) = .ok false :=
  ⟨C2_layout_check_aborts.1 ⟨2, true, 0, kDLFloat, 32, 1, [1], [1]⟩ rfl (by decide) (by decide),
   C2_layout_check_aborts.2 ⟨2, true, 0, kDLFloat, 32, 4, [1], [1]⟩ (by decide)⟩

/-- C3: within one call, the bound sets of all three visitors only grow
(a variable in the bound set stays in it after visiting any subtree), and a
binder introduced in one subtree is still bound in a later sibling subtree:
in `(let x0 = c in x0, x0)` even the second tuple field's `x0` is treated
as bound, so no variable is reported free. -/
theorem C3_bound_monotone :
    (∀ (e : Expr) (s : FVState) (x : Nat), x ∈ s.bound → x ∈ (visitExpr e s).bound) ∧
    (∀ (t : Ty) (s : FVState) (x : Nat), x ∈ s.bound → x ∈ (visitTy t s).bound) ∧
    (∀ (e : Expr) (s : FVState) (x : Nat), x ∈ s.bound → x ∈ (visitExprT e s).bound) ∧
    FindFreeVariables (.tuple [.letE 0 (.opRef "c") (.var 0), .var 0]) = [] := by
  refine ⟨?_, ?_, ?_, ?_⟩
  · exact fun e s x hx => (visitExpr_stepOK e s).1 x hx
  · exact fun t s x hx => (visitTy_stepOK t s).1 x hx
  · exact fun e s x hx => (visitExprT_stepOK e s).1 x hx
  · rfl

/-- C3 witness: monotonicity applied at a concrete state and expression. -/
theorem C3_witness :
    3 ∈ ([3] : List Nat) ∧ 3 ∈ (visitExpr (.var 9) ⟨[3], []⟩).bound :=
  ⟨by decide, C3_bound_monotone.1 (.var 9) ⟨[3], []⟩ 3 (by decide)⟩

/-- C4 counterexample: a float32 single-lane constant with non-null strides
and all elements nonnegative does not return `true`: the layout check
aborts, so the claimed equivalence fails at this constant. -/
theorem C4_counterexample :
    ¬ (IsAllNonNegativeConstant (.constant ⟨kDLCPU, false, 0, kDLFloat, 32, 1, [1], [0]⟩) =
         .ok true ↔
       ∀ x, x ∈ ((⟨kDLCPU, false, 0, kDLFloat, 32, 1, [1], [0]⟩ : NDArray)).data →
         ¬ x < 0) := by
  intro h
  have hall : ∀ x, x ∈ ((⟨kDLCPU, false, 0, kDLFloat, 32, 1, [1], [0]⟩ : NDArray)).data →
      ¬ x < (0 : Rat) := by
    intro x hx
    have hx0 : x = 0 := List.mem_singleton.mp hx
    rw [hx0]
    exact lt_irrefl 0
  have h2 := h.mpr hall
  rw [show IsAllNonNegativeConstant (.constant ⟨kDLCPU, false, 0, kDLFloat, 32, 1, [1], [0]⟩) =
      Except.error "Check failed: tensor.strides == nullptr" from rfl] at h2
  exact Except.noConfusion h2

/-- C4 amended: for a constant whose layout passes the checks (CPU, null
strides, zero byte offset), whose buffer length matches the shape product,
and whose single-lane encoding is in the supported set,
`IsAllNonNegativeConstant` returns `true` exactly when no element is
strictly less than zero; a constant whose lane count is not one or whose
encoding is outside the supported set returns `false` unconditionally. -/
theorem C4_scan_iff_nonneg :
    (∀ t : NDArray, goodLayout t = true → t.dtypeLanes = 1 → supportedDtype t = true →
       t.data.length = (numElems t).toNat →
       (IsAllNonNegativeConstant (.constant t) = .ok true ↔ ∀ x, x ∈ t.data → ¬ x < 0)) ∧
    (∀ t : NDArray, t.dtypeLanes ≠ 1 ∨ supportedDtype t = false →
       IsAllNonNegativeConstant (.constant t) = .ok false) := by
  constructor
  · intro t hg hl hd hlen
    show IsAllPositiveConstant (.constant t) = .ok true ↔ _
    rw [supported_dispatch t hl hd, good_layout_eval t 0 hg, ← hlen, List.take_length]
    constructor
    · intro h
      exact (ndarrayScan_eq_true_iff t.data 0).mp (Except.ok.inj h)
    · intro hall
      rw [(ndarrayScan_eq_true_iff t.data 0).mpr hall]
  · intro t h
    exact unsupported_encoding_false t h

/-- C4 witness: the amended equivalence applied to the all-nonnegative
constant `[0, 1, 2]` (float32, well-laid-out), and the unconditional-false
part applied to an unsupported 16-bit float constant. -/
theorem C4_witness :
    (IsAllNonNegativeConstant
        (.constant ⟨kDLCPU, true, 0, kDLFloat, 32, 1, [3], [0, 1, 2]⟩) = .ok true ↔
      ∀ x, x ∈ ((⟨kDLCPU, true, 0, kDLFloat, 32, 1, [3], [0, 1, 2]⟩ : NDArray)).data →
        ¬ x < 0) ∧
    IsAllNonNegativeConstant (.constant ⟨kDLCPU, true, 0, kDLFloat, 16, 1, [1], [1]⟩) =
      .ok false :=
  ⟨C4_scan_iff_nonneg.1 ⟨kDLCPU, true, 0, kDLFloat, 32, 1, [3], [0, 1, 2]⟩
     (by decide) rfl (by decide) (by decide),
   C4_scan_iff_nonneg.2 ⟨kDLCPU, true, 0, kDLFloat, 16, 1, [1], [1]⟩ (by decide)⟩

/-- C5: a call whose operator is one of the four allow-listed operators
evaluates to `IsAllNonNegativeConstant` of its first argument, and every
expression that is neither a constant nor a call to one of those four
operators evaluates to `false`. -/
theorem C5_peel_allowlist :
    (∀ (op a : Expr) (rest : List Expr), isPeelOp op = true →
       IsAllNonNegativeConstant (.call op (a :: rest)) = IsAllNonNegativeConstant a) ∧
    (∀ e : Expr, isConstExpr e = false → isPeelCall e = false →
       IsAllNonNegativeConstant e = .ok false) := by
  constructor
  · intro op a rest h
    show IsAllPositiveConstant (.call op (a :: rest)) = IsAllPositiveConstant a
    simp [IsAllPositiveConstant, h]
  · intro e hc hp
    cases e with
    | var id => rfl
    | constant t => simp [isConstExpr] at hc
    | opRef n => rfl
    | call op args =>
        have hop : isPeelOp op = false := by simpa [isPeelCall] using hp
        cases args with
        | nil =>
            show IsAllPositiveConstant (.call op []) = .ok false
            simp [IsAllPositiveConstant, hop]
        | cons a rest =>
            show IsAllPositiveConstant (.call op (a :: rest)) = .ok false
            simp [IsAllPositiveConstant, hop]
    | function params tps retTy body => rfl
    | letE v value body => rfl
    | tuple fields => rfl

/-- C5 witness: peeling through `reshape` on a concrete constant, and the
default-false part applied to a variable and to a call of an unlisted
operator. -/
theorem C5_witness :
    IsAllNonNegativeConstant
        (.call (.opRef "reshape") [.constant ⟨kDLCPU, true, 0, kDLInt, 32, 1, [3], [1, 2, 3]⟩]) =
      IsAllNonNegativeConstant (.constant ⟨kDLCPU, true, 0, kDLInt, 32, 1, [3], [1, 2, 3]⟩) ∧
    IsAllNonNegativeConstant (.var 3) = .ok false ∧
    IsAllNonNegativeConstant
        (.call (.opRef "someUnlistedOp")
          [.constant ⟨kDLCPU, true, 0, kDLInt, 32, 1, [1], [1]⟩]) = .ok false :=
  ⟨C5_peel_allowlist.1 (.opRef "reshape")
     (.constant ⟨kDLCPU, true, 0, kDLInt, 32, 1, [3], [1, 2, 3]⟩) [] (by decide),
   C5_peel_allowlist.2 (.var 3) rfl rfl,
   C5_peel_allowlist.2
     (.call (.opRef "someUnlistedOp") [.constant ⟨kDLCPU, true, 0, kDLInt, 32, 1, [1], [1]⟩])
     rfl (by decide)⟩

/-- C6: a variable occurrence is appended exactly when its identity is
absent from the bound set at the moment it is visited, the accumulator is
only ever appended to (pre-order discovery order, no deduplication or
sorting), and `y(y)` with `y` free yields `[y, y]`. -/
theorem C6_preorder_duplicates :
    (∀ (id : Nat) (s : FVState),
       visitExpr (.var id) s =
         if id ∈ s.bound then s else { s with free := s.free ++ [id] }) ∧
    (∀ (e : Expr) (s : FVState), ∃ l, (visitExpr e s).free = s.free ++ l) ∧
    FindFreeVariables (.call (.var 5) [.var 5]) = [5, 5] := by
  refine ⟨?_, ?_, ?_⟩
  · intro id s
    simp only [visitExpr]
  · intro e s
    obtain ⟨_, l, e1, _⟩ := visitExpr_stepOK e s
    exact ⟨l, e1⟩
  · rfl

/-- C6 witness: the accumulator-append part instantiated at `y(y)`. -/
theorem C6_witness :
    ∃ l, (visitExpr (.call (.var 5) [.var 5]) ⟨[], []⟩).free = [] ++ l :=
  C6_preorder_duplicates.2.1 (.call (.var 5) [.var 5]) ⟨[], []⟩

/-- C7: an expression in which every variable occurrence is bound by an
enclosing function parameter or let-binding on the path from the root has
no free variables; in particular `fun x => x` yields the empty sequence. -/
theorem C7_closed_no_free :
    (∀ e : Expr, closedUnder [] e = true → FindFreeVariables e = []) ∧
    FindFreeVariables (.function [(0, .tensorTy)] [] .tensorTy (.var 0)) = [] := by
  constructor
  · intro e hc
    have h := visitExpr_closed e [] ⟨[], []⟩ hc (by intro x hx; cases hx)
    simpa [FindFreeVariables, FreeVars] using h
  · rfl

/-- C7 witness: the closed expression `let x2 = x2 in x2`. -/
theorem C7_witness :
    closedUnder [] (.letE 2 (.var 2) (.var 2)) = true ∧
    FindFreeVariables (.letE 2 (.var 2) (.var 2)) = [] :=
  ⟨by decide, C7_closed_no_free.1 (.letE 2 (.var 2) (.var 2)) (by decide)⟩

/-- C8: the reference count of a node equals the number of root-to-node
paths traversed (one per incoming edge arrival); in the arena where node 0
is the argument of the two distinct call sites 3 and 4, its count is 2. -/
theorem C8_refcount_paths :
    (∀ (arena : List (List Nat)) (root n : Nat),
       GetExprRefCount arena root n = numPaths arena root n) ∧
    GetExprRefCount [[], [], [], [1, 0], [2, 0], [3, 4]] 5 0 = 2 := by
  constructor
  · intro arena root n
    exact count_visitSeqF (root + 1) arena root n
  · decide

/-- C8 witness: the count-equals-paths identity at a concrete arena and
node. -/
theorem C8_witness :
    GetExprRefCount [[], [], [], [1, 0], [2, 0], [3, 4]] 5 3 =
      numPaths [[], [], [], [1, 0], [2, 0], [3, 4]] 5 3 :=
  C8_refcount_paths.1 [[], [], [], [1, 0], [2, 0], [3, 4]] 5 3

/-- C9: a function (arrow) type's declared type parameters are in the type
bound set before its parameter and return types are visited (so they are
never collected from the children, of this call's whole state), a
term-level function likewise binds its declared type parameters and the
collection descends into its parameter and return type annotations, and a
type variable is appended exactly when absent from the bound set, without
deduplication. -/
theorem C9_type_param_binding :
    (∀ (tps : List Nat) (argTys : List Ty) (retTy : Ty) (s : FVState),
       ∃ l, (visitTy (.funcTy tps argTys retTy) s).free = s.free ++ l ∧
         ∀ x, x ∈ l → x ∉ tps ∧ x ∉ s.bound) ∧
    (∀ (params : List (Nat × Ty)) (tps : List Nat) (retTy : Ty) (body : Expr) (s : FVState),
       ∃ l, (visitExprT (.function params tps retTy body) s).free = s.free ++ l ∧
         ∀ x, x ∈ l → x ∉ tps ∧ x ∉ s.bound) ∧
    (∀ (id : Nat) (s : FVState),
       visitTy (.tyVar id) s =
         if id ∈ s.bound then s else { s with free := s.free ++ [id] }) ∧
    FindFreeTypeVariables (.function [(0, .tyVar 7)] [] (.tyVar 8) (.var 0)) = [7, 8] ∧
    FindFreeTypeVariablesT (.funcTy [] [.tyVar 3, .tyVar 3] .tensorTy) = [3, 3] := by
  refine ⟨?_, ?_, ?_, rfl, rfl⟩
  · intro tps argTys retTy s
    obtain ⟨m, l, e1, b1⟩ :=
      ((visitTyParams_stepOK tps { s with bound := tps ++ s.bound }).trans
        (visitTyList_stepOK argTys _)).trans (visitTy_stepOK retTy _)
    refine ⟨l, ?_, ?_⟩
    · simp only [visitTy]
      rw [e1]
    · intro x hx
      have hnb := b1 x hx
      constructor
      · intro hxt
        exact hnb (List.mem_append_left _ hxt)
      · intro hxs
        exact hnb (List.mem_append_right _ hxs)
  · intro params tps retTy body s
    obtain ⟨m, l, e1, b1⟩ :=
      ((visitTyList_stepOK (params.map Prod.snd) { s with bound := tps ++ s.bound }).trans
        (visitTy_stepOK retTy _)).trans (visitExprT_stepOK body _)
    refine ⟨l, ?_, ?_⟩
    · simp only [visitExprT]
      rw [e1]
    · intro x hx
      have hnb := b1 x hx
      constructor
      · intro hxt
        exact hnb (List.mem_append_left _ hxt)
      · intro hxs
        exact hnb (List.mem_append_right _ hxs)
  · intro id s
    simp only [visitTy]

/-- C9 witness: the arrow-type part instantiated at `forall a4, a4 -> a9`. -/
theorem C9_witness :
    ∃ l, (visitTy (.funcTy [4] [.tyVar 4] (.tyVar 9)) ⟨[], []⟩).free = [] ++ l ∧
      ∀ x, x ∈ l → x ∉ ([4] : List Nat) ∧ x ∉ ([] : List Nat) :=
  C9_type_param_binding.1 [4] [.tyVar 4] (.tyVar 9) ⟨[], []⟩

/-- C10: a well-laid-out constant with a supported single-lane encoding and
a zero shape dimension (hence zero elements) returns `true`: the element
scan is vacuous. -/
theorem C10_empty_tensor_true :
    ∀ t : NDArray, goodLayout t = true → t.dtypeLanes = 1 → supportedDtype t = true →
      (0 : Int) ∈ t.shape → IsAllNonNegativeConstant (.constant t) = .ok true := by
  intro t hg hl hd hs
  show IsAllPositiveConstant (.constant t) = .ok true
  rw [supported_dispatch t hl hd, good_layout_eval t 0 hg]
  have hne : numElems t = 0 := foldl_mul_zero t.shape 1 hs
  rw [hne]
  rfl

/-- C10 witness: an int32 tensor of shape `[2, 0]`; the scan reads no
elements, so even a junk buffer value is never consulted. -/
theorem C10_witness :
    (0 : Int) ∈ ((⟨kDLCPU, true, 0, kDLInt, 32, 1, [2, 0], [-3]⟩ : NDArray)).shape ∧
    IsAllNonNegativeConstant (.constant ⟨kDLCPU, true, 0, kDLInt, 32, 1, [2, 0], [-3]⟩) =
      .ok true :=
  ⟨by decide,
   C10_empty_tensor_true ⟨kDLCPU, true, 0, kDLInt, 32, 1, [2, 0], [-3]⟩
     (by decide) rfl (by decide) (by decide)⟩
